import Mathlib

/-!
Shallow embedding of `go-concurrent-cache` (`src/cache.go`) and proofs about it.

Modelling conventions:
* a Go string is its byte sequence, `Key := List Nat`;
* `time.Time` and `time.Duration` are `Int` nanoseconds; Go's zero time
  `time.Time{}` is `0`, `a.After(b)` is `a > b`, `a.Before(b)` is `a < b`;
* the 128 partitions (`items [128]ItemMap`) are association lists indexed by
  `Fin 128`; Go map assignment / delete / lookup become `pinsert` / `premove` /
  `plookup`;
* a Go panic (empty key in `Set`, out-of-range string index in `defaultHash`)
  is `Option.none`;
* the eviction callback is opaque, so the model records the list of
  `c.onEvicted(k, v)` invocations an operation performs (empty when no
  callback is registered, `hasEvicted = false`);
* the code is sequential here: each operation takes the current time `now`
  explicitly, and the lock manipulations of the source are dropped.  The only
  concurrency-sensitive claim (the two phases of `DeleteExpired`) is modelled
  by exposing the two phases `collectExpired` / `evictPass` separately so that
  an arbitrary state change can be interposed between them.
-/

namespace GoCache

/-- Go string as its byte sequence. -/
abbrev Key := List Nat

/-- `NoExpiration time.Duration = -1` (one nanosecond). -/
def NoExpiration : Int := -1

/-- `DefaultExpiration time.Duration = time.Minute * 5`, in nanoseconds. -/
def DefaultExpiration : Int := 5 * 60 * 1000000000

/-- `type Item struct { Object interface{}; Expiration time.Time }`. -/
structure Item (α : Type) where
  object : α
  expiration : Int
deriving DecidableEq

/-- The cache state: the configuration fields of `type cache struct` that the
claims touch, and the 128 partition maps.  `hasEvicted` models whether
`onEvicted != nil`. -/
structure CacheState (α : Type) where
  expiration : Int
  renewOnGet : Bool
  hasEvicted : Bool
  items : Fin 128 → List (Key × Item α)

/-- The recoverable errors `ErrNotFound`, `ErrEmptyKey`, `ErrExpired`. -/
inductive GoErr where
  | notFound
  | emptyKey
  | expired
deriving DecidableEq

variable {α : Type}

/-- Go map lookup `v, found := m[k]`. -/
def plookup (k : Key) : List (Key × Item α) → Option (Item α)
  | [] => none
  | p :: rest => if p.1 = k then some p.2 else plookup k rest

/-- Go map assignment `m[k] = it` (replaces the entry if present). -/
def pinsert (k : Key) (it : Item α) : List (Key × Item α) → List (Key × Item α)
  | [] => [(k, it)]
  | p :: rest => if p.1 = k then (k, it) :: rest else p :: pinsert k it rest

/-- Go map deletion `delete(m, k)`. -/
def premove (k : Key) : List (Key × Item α) → List (Key × Item α)
  | [] => []
  | p :: rest => if p.1 = k then premove k rest else p :: premove k rest

/-- `func defaultHash(s string) uint8 { return s[len(s)-1] & 0x7F }`:
`none` models the index-out-of-range panic on the empty string. -/
def defaultHash (s : Key) : Option Nat :=
  s.getLast?.map (fun b => b &&& 0x7F)

theorem defaultHash_lt {k : Key} {b : Nat} (h : defaultHash k = some b) :
    b < 128 := by
  unfold defaultHash at h
  cases hl : k.getLast? with
  | none => rw [hl] at h; simp at h
  | some c =>
    rw [hl] at h
    simp only [Option.map_some', Option.some.injEq] at h
    subst h
    exact Nat.lt_of_le_of_lt Nat.and_le_right (by decide)

/-- The partition index `i := c.hash(key)` used by the operations.  All call
sites in the source either guard against the empty key first or (for `Expired`)
go through `defaultHash` directly, so the `[]` branch here is unreachable from
the modelled operations. -/
def partIdx (k : Key) : Fin 128 :=
  match h : defaultHash k with
  | some b => ⟨b, defaultHash_lt h⟩
  | none => ⟨0, by decide⟩

/-- Replace partition `i`'s contents. -/
def setPart (s : CacheState α) (i : Fin 128) (l : List (Key × Item α)) :
    CacheState α :=
  { s with items := fun j => if j = i then l else s.items j }

/-- Lookup of `key` in its own partition (`c.items[c.hash(key)][key]`). -/
def lookupItem (k : Key) (s : CacheState α) : Option (Item α) :=
  plookup k (s.items (partIdx k))

/-- `func (c *Cache) Set(key string, object interface{})`.  `none` is the
`panic("empty key")`; the second component lists the `onEvicted` invocations
(the source performs none in `Set`). -/
def Set (now : Int) (k : Key) (v : α) (s : CacheState α) :
    Option (CacheState α × List (Key × α)) :=
  if k = [] then none
  else
    let exp : Int := if s.expiration ≠ NoExpiration then now + s.expiration else 0
    some (setPart s (partIdx k) (pinsert k ⟨v, exp⟩ (s.items (partIdx k))), [])

/-- `func (c *Cache) SetWithExpiration(key string, object interface{},
expiration time.Duration) error`: stores `Expiration = time.Now().Add(expiration)`
unconditionally. -/
def SetWithExpiration (now : Int) (k : Key) (v : α) (d : Int)
    (s : CacheState α) : Except GoErr (CacheState α) :=
  if k = [] then .error .emptyKey
  else .ok (setPart s (partIdx k) (pinsert k ⟨v, now + d⟩ (s.items (partIdx k))))

/-- `func (c *Cache) Replace(key string, object interface{}) error`.  The
second component lists the `onEvicted` invocations (the source performs none
in `Replace`). -/
def Replace (now : Int) (k : Key) (v : α) (s : CacheState α) :
    Except GoErr (CacheState α) × List (Key × α) :=
  if k = [] then (.error .emptyKey, [])
  else
    let exp : Int := if s.expiration ≠ NoExpiration then now + s.expiration else 0
    match plookup k (s.items (partIdx k)) with
    | none => (.error .notFound, [])
    | some _ =>
      (.ok (setPart s (partIdx k) (pinsert k ⟨v, exp⟩ (s.items (partIdx k)))), [])

/-- `func (c *Cache) Get(key string) (interface{}, error)`.  The returned
state reflects the renew-on-get update `c.items[i][key].Expiration =
newExpiration` (the source's double-check of presence after relocking is a
no-op in this sequential model). -/
def Get (now : Int) (k : Key) (s : CacheState α) :
    Except GoErr α × CacheState α :=
  if k = [] then (.error .emptyKey, s)
  else
    match plookup k (s.items (partIdx k)) with
    | some v =>
      if s.expiration = NoExpiration then (.ok v.object, s)
      else if now > v.expiration then (.error .expired, s)
      else if s.renewOnGet = false then (.ok v.object, s)
      else
        let newExp := now + s.expiration
        if newExp > v.expiration then
          (.ok v.object,
           setPart s (partIdx k)
             (pinsert k ⟨v.object, newExp⟩ (s.items (partIdx k))))
        else (.ok v.object, s)
    | none => (.error .notFound, s)

/-- `func (c *Cache) GetWithExpiration(key string) (interface{}, time.Time,
error)`.  Mirrors the source exactly: there is no expiration check; when a
renewal happens the returned timestamp is `v.Expiration` read after the
in-place update through the shared `*Item` pointer, i.e. `newExpiration`; and
when the item is found but no renewal branch returns, control falls through to
the final `return nil, time.Time{}, ErrNotFound`. -/
def GetWithExpiration (now : Int) (k : Key) (s : CacheState α) :
    Except GoErr (α × Int) × CacheState α :=
  if k = [] then (.error .emptyKey, s)
  else
    match plookup k (s.items (partIdx k)) with
    | some v =>
      if s.expiration = NoExpiration then (.ok (v.object, 0), s)
      else if s.renewOnGet = false then (.ok (v.object, v.expiration), s)
      else
        let newExp := now + s.expiration
        if newExp > v.expiration then
          (.ok (v.object, newExp),
           setPart s (partIdx k)
             (pinsert k ⟨v.object, newExp⟩ (s.items (partIdx k))))
        else (.error .notFound, s)
    | none => (.error .notFound, s)

/-- `func (c *Cache) Expired(key string) (time.Time, bool)`.  `none` models the
panic inside `c.hash(key)`: `Expired` has no empty-key guard, and the default
hash indexes `s[len(s)-1]`. -/
def Expired (now : Int) (k : Key) (s : CacheState α) : Option (Int × Bool) :=
  match h : defaultHash k with
  | none => none
  | some b =>
    match plookup k (s.items ⟨b, defaultHash_lt h⟩) with
    | none => some (0, true)
    | some v => some (v.expiration, decide (now > v.expiration))

/-- `func (c *Cache) GetAllKey() []string`. -/
def GetAllKey (s : CacheState α) : List Key :=
  (List.finRange 128).flatMap fun i => (s.items i).map Prod.fst

/-- `func (c *Cache) GetAllValidKey() []string`: under the no-expiration
sentinel it delegates to `GetAllKey`, otherwise it keeps the keys with
`time.Now().Before(v.Expiration)`. -/
def GetAllValidKey (now : Int) (s : CacheState α) : List Key :=
  if s.expiration = NoExpiration then GetAllKey s
  else
    (List.finRange 128).flatMap fun i =>
      ((s.items i).filter fun p => decide (now < p.2.expiration)).map Prod.fst

/-- `func (c *Cache) GetAllObject() map[string]interface{}` (the Go map is
modelled as the association list the loop builds). -/
def GetAllObject (s : CacheState α) : List (Key × α) :=
  (List.finRange 128).flatMap fun i => (s.items i).map fun p => (p.1, p.2.object)

/-- `func (c *Cache) GetAllValidObject() map[string]interface{}`. -/
def GetAllValidObject (now : Int) (s : CacheState α) : List (Key × α) :=
  if s.expiration = NoExpiration then GetAllObject s
  else
    (List.finRange 128).flatMap fun i =>
      ((s.items i).filter fun p => decide (now < p.2.expiration)).map fun p =>
        (p.1, p.2.object)

/-- `func (c *cache) cleanup(evict bool)`: every partition is replaced by an
empty map; the `onEvicted` invocations happen only when `evict &&
c.onEvicted != nil`. -/
def cleanup (evict : Bool) (s : CacheState α) :
    CacheState α × List (Key × α) :=
  ({ s with items := fun _ => [] },
   (List.finRange 128).flatMap fun i =>
     if evict && s.hasEvicted then (s.items i).map fun p => (p.1, p.2.object)
     else [])

/-- `func (c *Cache) Clean() { c.cleanup(false) }`. -/
def Clean (s : CacheState α) : CacheState α × List (Key × α) :=
  cleanup false s

/-- `func (c *Cache) Flush() { c.cleanup(true) }`. -/
def Flush (s : CacheState α) : CacheState α × List (Key × α) :=
  cleanup true s

/-- Phase 1 of `DeleteExpired`: collect the keys with `t.After(v.Expiration)`
under the shared partition locks. -/
def collectExpired (t : Int) (s : CacheState α) : List Key :=
  (List.finRange 128).flatMap fun i =>
    ((s.items i).filter fun p => decide (t > p.2.expiration)).map Prod.fst

/-- `delete(c.items[i], k)` for `i := c.hash(k)`. -/
def removeKey (k : Key) (s : CacheState α) : CacheState α :=
  setPart s (partIdx k) (premove k (s.items (partIdx k)))

/-- Phase 2 of `DeleteExpired`: for each collected key, re-lookup under the
exclusive partition lock, double-check `found && t.After(v.Expiration)`, and
only then delete and invoke `onEvicted`. -/
def evictPass (t : Int) (s : CacheState α) :
    List Key → CacheState α × List (Key × α)
  | [] => (s, [])
  | k :: rest =>
    match plookup k (s.items (partIdx k)) with
    | some v =>
      if t > v.expiration then
        let r := evictPass t (removeKey k s) rest
        (r.1, (if s.hasEvicted then [(k, v.object)] else []) ++ r.2)
      else evictPass t s rest
    | none => evictPass t s rest

/-- `func (c *Cache) DeleteExpired(t time.Time)`: phase 1 then phase 2 on the
same state (the sequential execution with no interference). -/
def DeleteExpired (t : Int) (s : CacheState α) :
    CacheState α × List (Key × α) :=
  evictPass t s (collectExpired t s)

/-- Well-formedness maintained by the cache: each partition map binds a key at
most once, and a key lives in the partition its hash selects. -/
def WF (s : CacheState α) : Prop :=
  ∀ i : Fin 128, ((s.items i).map Prod.fst).Nodup ∧
    ∀ p ∈ s.items i, defaultHash p.1 = some i.val


/-! ### Basic lemmas about the partition-map operations -/

theorem plookup_pinsert_self (k : Key) (it : Item α) (l : List (Key × Item α)) :
    plookup k (pinsert k it l) = some it := by
  induction l with
  | nil => simp [pinsert, plookup]
  | cons p rest ih =>
    by_cases h : p.1 = k
    · simp [pinsert, plookup, h]
    · simp [pinsert, plookup, h, ih]

theorem plookup_pinsert_ne {k k' : Key} (h : k' ≠ k) (it : Item α)
    (l : List (Key × Item α)) :
    plookup k' (pinsert k it l) = plookup k' l := by
  induction l with
  | nil => simp [pinsert, plookup, Ne.symm h]
  | cons p rest ih =>
    by_cases hp : p.1 = k
    · rw [pinsert, if_pos hp, plookup, plookup, if_neg (Ne.symm h),
        if_neg (show ¬p.1 = k' by rw [hp]; exact Ne.symm h)]
    · rw [pinsert, if_neg hp, plookup, plookup, ih]

theorem plookup_premove_self (k : Key) (l : List (Key × Item α)) :
    plookup k (premove k l) = none := by
  induction l with
  | nil => simp [premove, plookup]
  | cons p rest ih =>
    by_cases h : p.1 = k
    · simp [premove, h, ih]
    · simp [premove, plookup, h, ih]

theorem plookup_premove_ne {k k' : Key} (h : k' ≠ k)
    (l : List (Key × Item α)) :
    plookup k' (premove k l) = plookup k' l := by
  induction l with
  | nil => simp [premove]
  | cons p rest ih =>
    by_cases hp : p.1 = k
    · rw [premove, if_pos hp, ih, plookup,
        if_neg (show ¬p.1 = k' by rw [hp]; exact Ne.symm h)]
    · rw [premove, if_neg hp, plookup, plookup, ih]

theorem mem_keys_iff_isSome {k : Key} {l : List (Key × Item α)} :
    k ∈ l.map Prod.fst ↔ (plookup k l).isSome := by
  induction l with
  | nil => simp [plookup]
  | cons p rest ih =>
    by_cases h : p.1 = k
    · simp [plookup, h]
    · simp [plookup, h, ih, Ne.symm h]

theorem partIdx_val {k : Key} {b : Nat} (h : defaultHash k = some b) :
    (partIdx k).val = b := by
  unfold partIdx
  split
  · next b' h' => rw [h] at h'; cases h'; rfl
  · next h' => rw [h] at h'; cases h'

theorem defaultHash_isSome {k : Key} (h : k ≠ []) :
    ∃ b, defaultHash k = some b ∧ b < 128 := by
  cases hg : k.getLast? with
  | none => exact absurd (List.getLast?_eq_none_iff.mp hg) h
  | some c =>
    refine ⟨c &&& 0x7F, ?_, ?_⟩
    · simp [defaultHash, hg]
    · exact Nat.lt_of_le_of_lt Nat.and_le_right (by decide)

theorem setPart_items_self (s : CacheState α) (i : Fin 128)
    (l : List (Key × Item α)) : (setPart s i l).items i = l := by
  simp [setPart]

theorem setPart_items_ne (s : CacheState α) {i j : Fin 128} (h : j ≠ i)
    (l : List (Key × Item α)) : (setPart s i l).items j = s.items j := by
  simp [setPart, h]

theorem lookupItem_insert_self (s : CacheState α) (k : Key) (it : Item α) :
    lookupItem k (setPart s (partIdx k) (pinsert k it (s.items (partIdx k))))
      = some it := by
  simp [lookupItem, setPart_items_self, plookup_pinsert_self]

theorem lookupItem_removeKey_self (k : Key) (s : CacheState α) :
    lookupItem k (removeKey k s) = none := by
  simp [lookupItem, removeKey, setPart_items_self, plookup_premove_self]

theorem lookupItem_removeKey_ne {k k' : Key} (h : k' ≠ k) (s : CacheState α) :
    lookupItem k' (removeKey k s) = lookupItem k' s := by
  unfold lookupItem removeKey
  by_cases hp : partIdx k' = partIdx k
  · rw [hp, setPart_items_self, plookup_premove_ne h]
  · rw [setPart_items_ne _ hp]

theorem removeKey_hasEvicted (k : Key) (s : CacheState α) :
    (removeKey k s).hasEvicted = s.hasEvicted := rfl

/-! ### Concrete states used by witnesses and counterexamples -/

/-- Concrete cache: TTL 10ns, renew-on-get off, no eviction callback, empty. -/
def sEmpty : CacheState Nat :=
  { expiration := 10, renewOnGet := false, hasEvicted := false,
    items := fun _ => [] }

/-- Concrete cache: TTL 10ns, renew-on-get off, eviction callback registered,
one item of value 7 at key `[97]` (the byte of "a") expiring at time 5. -/
def sOver : CacheState Nat :=
  { expiration := 10, renewOnGet := false, hasEvicted := true,
    items := fun j => if j = partIdx [97] then [([97], ⟨7, 5⟩)] else [] }

/-- Like `sOver` but with renew-on-get enabled and no callback registered. -/
def sRen : CacheState Nat :=
  { expiration := 10, renewOnGet := true, hasEvicted := false,
    items := fun j => if j = partIdx [97] then [([97], ⟨7, 5⟩)] else [] }

/-- Concrete no-expiration cache holding one item stored with the zero-time
sentinel. -/
def sNoExp : CacheState Nat :=
  { expiration := NoExpiration, renewOnGet := false, hasEvicted := false,
    items := fun j => if j = partIdx [97] then [([97], ⟨7, 0⟩)] else [] }

/-- Like `sRen` but the stored expiration (1000) is far beyond `now + TTL`,
so a renew-on-get read finds no strictly later candidate. -/
def sFar : CacheState Nat :=
  { expiration := 10, renewOnGet := true, hasEvicted := false,
    items := fun j => if j = partIdx [97] then [([97], ⟨7, 1000⟩)] else [] }









/-! ### Claims -/

/-- C3: `Get` fails with `emptyKey` on the empty key, with `notFound` on an
absent key, and with `expired` when the item is present, expiration is
enabled, and the stored expiration is in the past; when the cache TTL is the
no-expiration sentinel a present item's value is always returned. -/
theorem claim_C3 {α : Type} :
    (∀ (now : Int) (s : CacheState α),
        Get now ([] : Key) s = (.error .emptyKey, s))
  ∧ (∀ (now : Int) (k : Key) (s : CacheState α), k ≠ [] →
        lookupItem k s = none → Get now k s = (.error .notFound, s))
  ∧ (∀ (now : Int) (k : Key) (s : CacheState α) (v : Item α), k ≠ [] →
        lookupItem k s = some v → s.expiration ≠ NoExpiration →
        now > v.expiration → Get now k s = (.error .expired, s))
  ∧ (∀ (now : Int) (k : Key) (s : CacheState α) (v : Item α), k ≠ [] →
        lookupItem k s = some v → s.expiration = NoExpiration →
        Get now k s = (.ok v.object, s)) := by
  refine ⟨fun now s => rfl, ?_, ?_, ?_⟩
  · intro now k s hk hl
    unfold Get
    rw [if_neg hk]
    unfold lookupItem at hl
    rw [hl]
  · intro now k s v hk hl hne hexp
    unfold Get
    rw [if_neg hk]
    unfold lookupItem at hl
    rw [hl]
    simp only [if_neg hne, if_pos hexp]
  · intro now k s v hk hl hno
    unfold Get
    rw [if_neg hk]
    unfold lookupItem at hl
    rw [hl]
    simp only [if_pos hno]

/-- Witness for C3 at concrete inputs. -/
theorem claim_C3_witness :
    Get 0 ([] : Key) sEmpty = (.error .emptyKey, sEmpty)
  ∧ Get 0 [97] sEmpty = (.error .notFound, sEmpty)
  ∧ Get 20 [97] sOver = (.error .expired, sOver)
  ∧ Get 20 [97] sNoExp = (.ok 7, sNoExp) :=
  ⟨claim_C3.1 0 sEmpty,
   claim_C3.2.1 0 [97] sEmpty (by decide) rfl,
   claim_C3.2.2.1 20 [97] sOver ⟨7, 5⟩ (by decide) rfl (by decide) (by decide),
   claim_C3.2.2.2 20 [97] sNoExp ⟨7, 0⟩ (by decide) rfl rfl⟩

/-- C8: when the cache TTL is the no-expiration sentinel, `GetAllValidKey`
returns exactly `GetAllKey` and `GetAllValidObject` returns exactly
`GetAllObject` (the source delegates directly in this case). -/
theorem claim_C8 {α : Type} (now : Int) (s : CacheState α)
    (h : s.expiration = NoExpiration) :
    GetAllValidKey now s = GetAllKey s
  ∧ GetAllValidObject now s = GetAllObject s := by
  constructor
  · unfold GetAllValidKey
    rw [if_pos h]
  · unfold GetAllValidObject
    rw [if_pos h]

/-- Witness for C8 at a concrete no-expiration cache. -/
theorem claim_C8_witness :
    GetAllValidKey 0 sNoExp = GetAllKey sNoExp
  ∧ GetAllValidObject 0 sNoExp = GetAllObject sNoExp :=
  claim_C8 0 sNoExp rfl

/-- C9: for every non-empty key the default hash returns an index below 128,
so every partition access is in bounds, while `Expired` reaches the hash with
no empty-key guard, and on the empty string the hash's string index panics
(modelled as `none`). -/
theorem claim_C9 :
    (∀ k : Key, k ≠ [] → ∃ b, defaultHash k = some b ∧ b < 128)
  ∧ (∀ (now : Int) (s : CacheState Nat), Expired now ([] : Key) s = none) := by
  constructor
  · intro k hk
    exact defaultHash_isSome hk
  · intro now s
    rfl

/-- Witness for C9 at concrete inputs. -/
theorem claim_C9_witness :
    (defaultHash [97]).isSome = true ∧ Expired 0 ([] : Key) sEmpty = none := by
  obtain ⟨b, hb, _⟩ := claim_C9.1 [97] (by decide)
  exact ⟨by rw [hb]; rfl, claim_C9.2 0 sEmpty⟩

/-- C10: `SetWithExpiration` always stores `now + d`, so with
`d = NoExpiration` the stored expiration is one nanosecond in the past (the
item is born expired), unlike `Set` under a no-expiration cache, which stores
the zero-time sentinel. -/
theorem claim_C10 {α : Type} :
    (∀ (now : Int) (k : Key) (v : α) (d : Int) (s s' : CacheState α),
        SetWithExpiration now k v d s = .ok s' →
        lookupItem k s' = some ⟨v, now + d⟩)
  ∧ (∀ (now : Int) (k : Key) (v : α) (s s' : CacheState α),
        SetWithExpiration now k v NoExpiration s = .ok s' →
        lookupItem k s' = some ⟨v, now + NoExpiration⟩
        ∧ now > now + NoExpiration)
  ∧ (∀ (now : Int) (k : Key) (v : α) (s s' : CacheState α)
        (ev : List (Key × α)), s.expiration = NoExpiration →
        Set now k v s = some (s', ev) → lookupItem k s' = some ⟨v, 0⟩) := by
  have base : ∀ (now : Int) (k : Key) (v : α) (d : Int) (s s' : CacheState α),
      SetWithExpiration now k v d s = .ok s' →
      lookupItem k s' = some ⟨v, now + d⟩ := by
    intro now k v d s s' h
    unfold SetWithExpiration at h
    by_cases hk : k = []
    · rw [if_pos hk] at h; cases h
    · rw [if_neg hk] at h
      cases h
      exact lookupItem_insert_self s k ⟨v, now + d⟩
  refine ⟨base, ?_, ?_⟩
  · intro now k v s s' h
    refine ⟨base now k v NoExpiration s s' h, ?_⟩
    unfold NoExpiration
    omega
  · intro now k v s s' ev hno h
    unfold Set at h
    by_cases hk : k = []
    · rw [if_pos hk] at h; cases h
    · rw [if_neg hk] at h
      simp only [Option.some.injEq, Prod.mk.injEq] at h
      obtain ⟨hs, _⟩ := h
      subst hs
      have : (if s.expiration ≠ NoExpiration then now + s.expiration else 0) = 0 := by
        rw [if_neg (by simp [hno])]
      rw [this] at *
      exact lookupItem_insert_self s k ⟨v, 0⟩

/-- Witness for C10 at concrete inputs. -/
theorem claim_C10_witness :
    ((SetWithExpiration 100 [97] (7 : Nat) NoExpiration sEmpty).toOption.map
        (fun s' => lookupItem [97] s')) = some (some ⟨7, 99⟩)
  ∧ (100 : Int) > 100 + NoExpiration
  ∧ ((Set 100 [97] (7 : Nat) sNoExp).map
        (fun r => lookupItem [97] r.1)) = some (some ⟨7, 0⟩) := by
  have h1 := claim_C10.2.1 100 [97] (7 : Nat) sEmpty
    (setPart sEmpty (partIdx [97])
      (pinsert [97] ⟨7, 100 + NoExpiration⟩ (sEmpty.items (partIdx [97])))) rfl
  have h3 := claim_C10.2.2 100 [97] (7 : Nat) sNoExp
    (setPart sNoExp (partIdx [97])
      (pinsert [97] ⟨7, 0⟩ (sNoExp.items (partIdx [97])))) [] rfl rfl
  refine ⟨?_, h1.2, ?_⟩
  · rw [show (SetWithExpiration 100 [97] (7 : Nat) NoExpiration sEmpty)
        = .ok (setPart sEmpty (partIdx [97])
            (pinsert [97] ⟨7, 100 + NoExpiration⟩
              (sEmpty.items (partIdx [97])))) from rfl]
    simp only [Except.toOption, Option.map_some']
    rw [h1.1]
    rfl
  · rw [show (Set 100 [97] (7 : Nat) sNoExp)
        = some (setPart sNoExp (partIdx [97])
            (pinsert [97] ⟨7, (0 : Int)⟩ (sNoExp.items (partIdx [97]))), [])
        from rfl]
    simp only [Option.map_some']
    rw [h3]


/-- C4: with renew-on-get enabled, a successful `Get` stores
`max(old, now + TTL)` — it updates only when the candidate `now + TTL` is
strictly later than the stored expiration, so the stored expiration never
decreases — and returns the previously stored value either way. -/
theorem claim_C4 {α : Type} (now : Int) (k : Key) (s : CacheState α)
    (v : Item α) (hk : k ≠ []) (hren : s.renewOnGet = true)
    (hne : s.expiration ≠ NoExpiration) (hl : lookupItem k s = some v)
    (hval : ¬ now > v.expiration) :
    (Get now k s).1 = .ok v.object
  ∧ lookupItem k (Get now k s).2 =
      some ⟨v.object,
        if now + s.expiration > v.expiration then now + s.expiration
        else v.expiration⟩
  ∧ v.expiration ≤
      (if now + s.expiration > v.expiration then now + s.expiration
       else v.expiration)
  ∧ (¬ now + s.expiration > v.expiration → (Get now k s).2 = s) := by
  have hG : Get now k s =
      if now + s.expiration > v.expiration then
        (.ok v.object,
         setPart s (partIdx k)
           (pinsert k ⟨v.object, now + s.expiration⟩ (s.items (partIdx k))))
      else (.ok v.object, s) := by
    unfold Get
    rw [if_neg hk]
    unfold lookupItem at hl
    rw [hl]
    simp only [if_neg hne, if_neg hval, hren]
    rfl
  by_cases hr : now + s.expiration > v.expiration
  · rw [hG]
    simp only [if_pos hr]
    exact ⟨by trivial, lookupItem_insert_self s k _, le_of_lt hr,
      fun hc => absurd hr hc⟩
  · rw [hG]
    simp only [if_neg hr]
    exact ⟨by trivial, hl, le_refl _, fun _ => by trivial⟩

/-- Witness for C4: at time 0 with TTL 10 the item stored at expiration 5 is
renewed to 10 and its old value is returned. -/
theorem claim_C4_witness :
    (Get 0 [97] sRen).1 = .ok 7
  ∧ lookupItem [97] (Get 0 [97] sRen).2 = some ⟨7, 10⟩ := by
  have h := claim_C4 0 [97] sRen ⟨7, 5⟩ (by decide) rfl (by decide) rfl
    (by decide)
  refine ⟨h.1, ?_⟩
  rw [h.2.1]
  rfl

/-- C5: `Set k v` followed immediately by `Get k` returns `v`, provided the
TTL has not elapsed in between (or the cache never expires). -/
theorem claim_C5 {α : Type} (s : CacheState α) (nowS nowG : Int) (k : Key)
    (v : α) (hk : k ≠ [])
    (hTTL : s.expiration = NoExpiration ∨ ¬ nowG > nowS + s.expiration)
    (s' : CacheState α) (ev : List (Key × α))
    (hset : Set nowS k v s = some (s', ev)) :
    (Get nowG k s').1 = .ok v := by
  unfold Set at hset
  rw [if_neg hk] at hset
  simp only [Option.some.injEq, Prod.mk.injEq] at hset
  obtain ⟨hs, -⟩ := hset
  subst hs
  by_cases hno : s.expiration = NoExpiration
  · have hexp : (if s.expiration ≠ NoExpiration then nowS + s.expiration
        else 0) = (0 : Int) := if_neg (by simp [hno])
    rw [hexp]
    have hlook := lookupItem_insert_self s k ⟨v, (0 : Int)⟩
    unfold Get
    rw [if_neg hk]
    unfold lookupItem at hlook
    rw [hlook]
    have hconf : (setPart s (partIdx k)
        (pinsert k ⟨v, (0 : Int)⟩ (s.items (partIdx k)))).expiration
          = s.expiration := rfl
    simp only [hconf]
    rw [if_pos hno]
  · have hexp : (if s.expiration ≠ NoExpiration then nowS + s.expiration
        else 0) = nowS + s.expiration := if_pos hno
    rw [hexp]
    have hng : ¬ nowG > nowS + s.expiration := hTTL.resolve_left hno
    have hlook := lookupItem_insert_self s k ⟨v, nowS + s.expiration⟩
    unfold Get
    rw [if_neg hk]
    unfold lookupItem at hlook
    rw [hlook]
    have hconf : (setPart s (partIdx k)
        (pinsert k ⟨v, nowS + s.expiration⟩ (s.items (partIdx k)))).expiration
          = s.expiration := rfl
    have hren : (setPart s (partIdx k)
        (pinsert k ⟨v, nowS + s.expiration⟩ (s.items (partIdx k)))).renewOnGet
          = s.renewOnGet := rfl
    simp only [hconf, hren]
    rw [if_neg hno]
    have hng' : ¬ nowG > (⟨v, nowS + s.expiration⟩ : Item α).expiration := hng
    rw [if_neg hng']
    by_cases hrg : s.renewOnGet = false
    · rw [if_pos hrg]
    · rw [if_neg hrg]
      by_cases hup : nowG + s.expiration >
          (⟨v, nowS + s.expiration⟩ : Item α).expiration
      · simp only [if_pos hup]
      · simp only [if_neg hup]

/-- Witness for C5: insert value 7 at time 0 under TTL 10 and read it back at
time 5. -/
theorem claim_C5_witness :
    (Get 5 [97]
      (setPart sEmpty (partIdx [97])
        (pinsert [97] ⟨7, 10⟩ (sEmpty.items (partIdx [97]))))).1
      = .ok (7 : Nat) := by
  have h := claim_C5 sEmpty 0 5 [97] (7 : Nat) (by decide)
    (Or.inr (by decide))
    (setPart sEmpty (partIdx [97])
      (pinsert [97] ⟨7, 10⟩ (sEmpty.items (partIdx [97])))) [] rfl
  exact h


/-- C1 counterexample: with an eviction callback registered and key `[97]`
present with old value 7, `Set` overwrites but performs zero `onEvicted`
invocations, and so does a successful `Replace` — contradicting the claim
that the overwritten item's previous value is notified. -/
theorem claim_C1_counterexample :
    sOver.hasEvicted = true
  ∧ lookupItem [97] sOver = some ⟨7, 5⟩
  ∧ (Set 0 [97] 9 sOver).map Prod.snd = some []
  ∧ ((Set 0 [97] 9 sOver).map fun r => lookupItem [97] r.1)
      = some (some ⟨9, 10⟩)
  ∧ (Replace 0 [97] 9 sOver).2 = []
  ∧ ((Replace 0 [97] 9 sOver).1.toOption.map fun s' => lookupItem [97] s')
      = some (some ⟨9, 10⟩) :=
  ⟨rfl, rfl, rfl, rfl, rfl, rfl⟩

/-- C1 amended: `Set` on a present key overwrites the existing item
unconditionally and `Replace` on a present key succeeds and overwrites, but
neither operation invokes the eviction callback for the overwritten value. -/
theorem claim_C1_amended {α : Type} :
    (∀ (now : Int) (k : Key) (v : α) (s : CacheState α)
        (r : CacheState α × List (Key × α)), Set now k v s = some r →
        lookupItem k r.1 =
          some ⟨v, if s.expiration ≠ NoExpiration then now + s.expiration
            else 0⟩
        ∧ r.2 = [])
  ∧ (∀ (now : Int) (k : Key) (v : α) (s : CacheState α) (w : Item α),
        k ≠ [] → lookupItem k s = some w →
        ∃ s', (Replace now k v s).1 = .ok s'
        ∧ (Replace now k v s).2 = []
        ∧ lookupItem k s' =
            some ⟨v, if s.expiration ≠ NoExpiration then now + s.expiration
              else 0⟩) := by
  constructor
  · intro now k v s r h
    unfold Set at h
    by_cases hk : k = []
    · rw [if_pos hk] at h; cases h
    · rw [if_neg hk] at h
      simp only [Option.some.injEq] at h
      subst h
      exact ⟨lookupItem_insert_self s k _, rfl⟩
  · intro now k v s w hk hl
    unfold Replace
    rw [if_neg hk]
    unfold lookupItem at hl
    rw [hl]
    exact ⟨_, rfl, rfl, lookupItem_insert_self s k _⟩

/-- Witness for the amended C1 at concrete inputs. -/
theorem claim_C1_amended_witness :
    ((Set 0 [97] (9 : Nat) sOver).map Prod.snd = some [])
  ∧ (Replace 0 [97] (9 : Nat) sOver).2 = [] := by
  obtain ⟨hSet, hRep⟩ := claim_C1_amended (α := Nat)
  obtain ⟨s', h1, h2, h3⟩ := hRep 0 [97] 9 sOver ⟨7, 5⟩ (by decide) rfl
  have h4 := hSet 0 [97] 9 sOver
    (setPart sOver (partIdx [97])
      (pinsert [97] ⟨9, if sOver.expiration ≠ NoExpiration
        then 0 + sOver.expiration else 0⟩ (sOver.items (partIdx [97]))), [])
    rfl
  refine ⟨?_, h2⟩
  have h5 : (Set 0 [97] (9 : Nat) sOver).map Prod.snd
      = some ((setPart sOver (partIdx [97])
          (pinsert [97] ⟨9, if sOver.expiration ≠ NoExpiration
            then 0 + sOver.expiration else 0⟩
            (sOver.items (partIdx [97]))), ([] : List (Key × Nat))).2) := rfl
  rw [h5, h4.2]

/-- C2 counterexample: key `[97]` is present but expired (stored expiration 5,
read at time 20, TTL 10, renew-on-get off), so `Get` reports `expired`, yet
`GetWithExpiration` returns the value as if valid — contradicting the claim
that both share the `Expired` lookup semantics. -/
theorem claim_C2_counterexample :
    (Get 20 [97] sOver).1 = .error .expired
  ∧ (GetWithExpiration 20 [97] sOver).1 = .ok (7, 5) :=
  ⟨rfl, rfl⟩

/-- C2 amended: `GetWithExpiration` agrees with `Get` on empty keys, absent
keys and no-expiration caches, and when renew-on-get triggers a renewal it
returns the just-renewed timestamp; but it performs no expiration check (an
expired item is returned as valid with renew-on-get off, never `expired`),
and with renew-on-get on it falls through to `notFound` for a present item
whose candidate expiration is not strictly later than the stored one. -/
theorem claim_C2_amended {α : Type} :
    (∀ (now : Int) (s : CacheState α),
        GetWithExpiration now ([] : Key) s = (.error .emptyKey, s)
        ∧ Get now ([] : Key) s = (.error .emptyKey, s))
  ∧ (∀ (now : Int) (k : Key) (s : CacheState α), k ≠ [] →
        lookupItem k s = none →
        (GetWithExpiration now k s).1 = .error .notFound
        ∧ (Get now k s).1 = .error .notFound)
  ∧ (∀ (now : Int) (k : Key) (s : CacheState α) (v : Item α), k ≠ [] →
        lookupItem k s = some v → s.expiration = NoExpiration →
        (GetWithExpiration now k s).1 = .ok (v.object, 0)
        ∧ (Get now k s).1 = .ok v.object)
  ∧ (∀ (now : Int) (k : Key) (s : CacheState α) (v : Item α), k ≠ [] →
        lookupItem k s = some v → s.expiration ≠ NoExpiration →
        s.renewOnGet = false →
        (GetWithExpiration now k s).1 = .ok (v.object, v.expiration))
  ∧ (∀ (now : Int) (k : Key) (s : CacheState α) (v : Item α), k ≠ [] →
        lookupItem k s = some v → s.expiration ≠ NoExpiration →
        s.renewOnGet = true → now + s.expiration > v.expiration →
        (GetWithExpiration now k s).1 = .ok (v.object, now + s.expiration)
        ∧ lookupItem k (GetWithExpiration now k s).2
            = some ⟨v.object, now + s.expiration⟩)
  ∧ (∀ (now : Int) (k : Key) (s : CacheState α) (v : Item α), k ≠ [] →
        lookupItem k s = some v → s.expiration ≠ NoExpiration →
        s.renewOnGet = true → ¬ now + s.expiration > v.expiration →
        (GetWithExpiration now k s).1 = .error .notFound) := by
  refine ⟨fun now s => ⟨rfl, rfl⟩, ?_, ?_, ?_, ?_, ?_⟩
  · intro now k s hk hl
    unfold GetWithExpiration Get
    rw [if_neg hk, if_neg hk]
    unfold lookupItem at hl
    rw [hl]
    exact ⟨rfl, rfl⟩
  · intro now k s v hk hl hno
    unfold GetWithExpiration Get
    rw [if_neg hk, if_neg hk]
    unfold lookupItem at hl
    rw [hl]
    simp only [if_pos hno]
    exact ⟨by trivial, by trivial⟩
  · intro now k s v hk hl hne hrg
    unfold GetWithExpiration
    rw [if_neg hk]
    unfold lookupItem at hl
    rw [hl]
    simp only [if_neg hne, hrg]
    rfl
  · intro now k s v hk hl hne hrg hup
    have hGW : GetWithExpiration now k s =
        (.ok (v.object, now + s.expiration),
         setPart s (partIdx k)
           (pinsert k ⟨v.object, now + s.expiration⟩
             (s.items (partIdx k)))) := by
      unfold GetWithExpiration
      rw [if_neg hk]
      unfold lookupItem at hl
      rw [hl]
      simp only [if_neg hne, hrg, if_pos hup]
      rfl
    rw [hGW]
    exact ⟨rfl, lookupItem_insert_self s k _⟩
  · intro now k s v hk hl hne hrg hup
    unfold GetWithExpiration
    rw [if_neg hk]
    unfold lookupItem at hl
    rw [hl]
    simp only [if_neg hne, hrg, if_neg hup]
    rfl

/-- Witness for the amended C2: the present-but-expired item is returned as
valid by `GetWithExpiration` while a renewal returns the fresh timestamp. -/
theorem claim_C2_amended_witness :
    (GetWithExpiration 20 [97] sOver).1 = .ok (7, 5)
  ∧ (GetWithExpiration 0 [97] sRen).1 = .ok (7, 10)
  ∧ (GetWithExpiration 0 [97] sFar).1 = .error .notFound := by
  refine ⟨claim_C2_amended.2.2.2.1 20 [97] sOver ⟨7, 5⟩ (by decide) rfl
      (by decide) rfl, ?_, ?_⟩
  · have h := claim_C2_amended.2.2.2.2.1 0 [97] sRen ⟨7, 5⟩ (by decide) rfl
      (by decide) rfl (by decide)
    exact h.1
  · exact claim_C2_amended.2.2.2.2.2 0 [97] sFar ⟨7, 1000⟩ (by decide) rfl
      (by decide) rfl (by decide)


/-! ### Lemmas about the two phases of DeleteExpired -/

theorem evictPass_cons_none (t : Int) (s : CacheState α) (k' : Key)
    (rest : List Key) (hv : plookup k' (s.items (partIdx k')) = none) :
    evictPass t s (k' :: rest) = evictPass t s rest := by
  conv_lhs => unfold evictPass
  rw [hv]

theorem evictPass_cons_some (t : Int) (s : CacheState α) (k' : Key)
    (rest : List Key) (v : Item α)
    (hv : plookup k' (s.items (partIdx k')) = some v) :
    evictPass t s (k' :: rest)
      = if t > v.expiration then
          ((evictPass t (removeKey k' s) rest).1,
           (if s.hasEvicted then [(k', v.object)] else [])
             ++ (evictPass t (removeKey k' s) rest).2)
        else evictPass t s rest := by
  conv_lhs => unfold evictPass
  rw [hv]

theorem evictPass_absent (t : Int) (keys : List Key) (s : CacheState α)
    (k : Key) (h : lookupItem k s = none) :
    lookupItem k (evictPass t s keys).1 = none
    ∧ ((evictPass t s keys).2.map Prod.fst).count k = 0 := by
  induction keys generalizing s with
  | nil => exact ⟨h, rfl⟩
  | cons k' rest ih =>
    cases hv : plookup k' (s.items (partIdx k')) with
    | none =>
      rw [evictPass_cons_none t s k' rest hv]
      exact ih s h
    | some v =>
      rw [evictPass_cons_some t s k' rest v hv]
      by_cases hexp : t > v.expiration
      · rw [if_pos hexp]
        have hk' : k' ≠ k := by
          intro he
          subst he
          unfold lookupItem at h
          rw [h] at hv
          cases hv
        have h' : lookupItem k (removeKey k' s) = none := by
          rw [lookupItem_removeKey_ne (Ne.symm hk'), h]
        obtain ⟨ih1, ih2⟩ := ih (removeKey k' s) h'
        refine ⟨ih1, ?_⟩
        simp only [List.map_append, List.count_append, ih2, Nat.add_zero]
        cases he : s.hasEvicted
        · simp
        · simp [List.count_cons, hk']
      · rw [if_neg hexp]
        exact ih s h

theorem evictPass_keep (t : Int) (keys : List Key) (s : CacheState α)
    (k : Key) (v : Item α) (h : lookupItem k s = some v)
    (hval : ¬ t > v.expiration) :
    lookupItem k (evictPass t s keys).1 = some v
    ∧ ((evictPass t s keys).2.map Prod.fst).count k = 0 := by
  induction keys generalizing s with
  | nil => exact ⟨h, rfl⟩
  | cons k' rest ih =>
    cases hv : plookup k' (s.items (partIdx k')) with
    | none =>
      rw [evictPass_cons_none t s k' rest hv]
      exact ih s h
    | some w =>
      rw [evictPass_cons_some t s k' rest w hv]
      by_cases hexp : t > w.expiration
      · rw [if_pos hexp]
        have hk' : k' ≠ k := by
          intro he
          subst he
          unfold lookupItem at h
          rw [h] at hv
          cases hv
          exact hval hexp
        have h' : lookupItem k (removeKey k' s) = some v := by
          rw [lookupItem_removeKey_ne (Ne.symm hk'), h]
        obtain ⟨ih1, ih2⟩ := ih (removeKey k' s) h'
        refine ⟨ih1, ?_⟩
        simp only [List.map_append, List.count_append, ih2, Nat.add_zero]
        cases he : s.hasEvicted
        · simp
        · simp [List.count_cons, hk']
      · rw [if_neg hexp]
        exact ih s h

theorem evictPass_remove (t : Int) (keys : List Key) (s : CacheState α)
    (k : Key) (v : Item α) (h : lookupItem k s = some v)
    (hexp : t > v.expiration) (hmem : k ∈ keys) :
    lookupItem k (evictPass t s keys).1 = none
    ∧ ((evictPass t s keys).2.map Prod.fst).count k
        = (if s.hasEvicted then 1 else 0)
    ∧ (s.hasEvicted = true → (k, v.object) ∈ (evictPass t s keys).2) := by
  induction keys generalizing s with
  | nil => cases hmem
  | cons k' rest ih =>
    by_cases hk' : k' = k
    · subst hk'
      have hv : plookup k' (s.items (partIdx k')) = some v := h
      rw [evictPass_cons_some t s k' rest v hv, if_pos hexp]
      have h0 : lookupItem k' (removeKey k' s) = none :=
        lookupItem_removeKey_self k' s
      obtain ⟨ha1, ha2⟩ := evictPass_absent t rest (removeKey k' s) k' h0
      refine ⟨ha1, ?_, ?_⟩
      · simp only [List.map_append, List.count_append, ha2, Nat.add_zero]
        cases he : s.hasEvicted
        · simp
        · simp [List.count_cons]
      · intro he
        rw [he]
        simp
    · have hmem' : k ∈ rest := by
        cases hmem with
        | head => exact absurd rfl hk'
        | tail _ hm => exact hm
      cases hv : plookup k' (s.items (partIdx k')) with
      | none =>
        rw [evictPass_cons_none t s k' rest hv]
        exact ih s h hmem'
      | some w =>
        rw [evictPass_cons_some t s k' rest w hv]
        by_cases hexp' : t > w.expiration
        · rw [if_pos hexp']
          have h' : lookupItem k (removeKey k' s) = some v := by
            rw [lookupItem_removeKey_ne (Ne.symm hk'), h]
          have hev : (removeKey k' s).hasEvicted = s.hasEvicted := rfl
          obtain ⟨ih1, ih2, ih3⟩ := ih (removeKey k' s) h' hmem'
          rw [hev] at ih2
          refine ⟨ih1, ?_, ?_⟩
          · simp only [List.map_append, List.count_append, ih2]
            cases he : s.hasEvicted
            · simp
            · simp [List.count_cons, hk']
          · intro he
            have hin := ih3 (by rw [hev, he])
            rw [he]
            simp only [if_pos]
            exact List.mem_append_right _ hin
        · rw [if_neg hexp']
          exact ih s h hmem'

/-- C7: for each key collected by phase 1 of `DeleteExpired` run on the
discovery-time state, phase 2 run on the (possibly mutated) eviction-time
state removes the item only if it is still present and still expired at the
double-check; a removed item triggers exactly one `onEvicted` invocation when
a callback is registered (zero otherwise), and an item that was deleted, or
renewed so that the double-check no longer sees it as expired, is left
untouched with no invocation. -/
theorem claim_C7 {α : Type} (t : Int) (s₁ s₂ : CacheState α) (k : Key)
    (hcol : k ∈ collectExpired t s₁) :
    (lookupItem k s₂ = none →
        lookupItem k (evictPass t s₂ (collectExpired t s₁)).1 = none
        ∧ ((evictPass t s₂ (collectExpired t s₁)).2.map Prod.fst).count k = 0)
  ∧ (∀ v : Item α, lookupItem k s₂ = some v → ¬ t > v.expiration →
        lookupItem k (evictPass t s₂ (collectExpired t s₁)).1 = some v
        ∧ ((evictPass t s₂ (collectExpired t s₁)).2.map Prod.fst).count k = 0)
  ∧ (∀ v : Item α, lookupItem k s₂ = some v → t > v.expiration →
        lookupItem k (evictPass t s₂ (collectExpired t s₁)).1 = none
        ∧ ((evictPass t s₂ (collectExpired t s₁)).2.map Prod.fst).count k
            = (if s₂.hasEvicted then 1 else 0)
        ∧ (s₂.hasEvicted = true →
            (k, v.object) ∈ (evictPass t s₂ (collectExpired t s₁)).2))
  ∧ DeleteExpired t s₂ = evictPass t s₂ (collectExpired t s₂) :=
  ⟨fun h => evictPass_absent t _ s₂ k h,
   fun v h hval => evictPass_keep t _ s₂ k v h hval,
   fun v h hexp => evictPass_remove t _ s₂ k v h hexp hcol,
   rfl⟩

/-- Witness for C7: with no interference, the expired item at `[97]` is
collected, double-checked, removed, and notified exactly once. -/
theorem claim_C7_witness :
    lookupItem [97] (evictPass 20 sOver (collectExpired 20 sOver)).1 = none
  ∧ ((evictPass 20 sOver (collectExpired 20 sOver)).2.map Prod.fst).count [97]
      = 1
  ∧ ([97], 7) ∈ (evictPass 20 sOver (collectExpired 20 sOver)).2 := by
  have h := (claim_C7 20 sOver sOver [97] (by decide)).2.2.1 ⟨7, 5⟩ rfl
    (by decide)
  exact ⟨h.1, by rw [h.2.1]; rfl, h.2.2 rfl⟩

/-! ### Counting lemmas for Flush -/

theorem count_eq_one_of_nodup_mem {k : Key} {l : List Key}
    (hnd : l.Nodup) (hk : k ∈ l) : l.count k = 1 := by
  induction l with
  | nil => cases hk
  | cons x rest ih =>
    rw [List.count_cons]
    rcases List.mem_cons.mp hk with he | hm
    · subst he
      have hnot : k ∉ rest := (List.nodup_cons.mp hnd).1
      rw [List.count_eq_zero.mpr hnot]
      simp
    · obtain ⟨hx0, hnd'⟩ := List.nodup_cons.mp hnd
      have hx : x ≠ k := fun he => hx0 (he ▸ hm)
      rw [ih hnd' hm]
      simp [hx]

theorem map_fst_GetAllObject (s : CacheState α) :
    (GetAllObject s).map Prod.fst = GetAllKey s := by
  unfold GetAllObject GetAllKey
  rw [List.map_flatMap]
  simp [Function.comp_def]

theorem sum_map_single (L : List (Fin 128)) (g : Fin 128 → Nat)
    (i₀ : Fin 128) (hnd : L.Nodup) (hmem : i₀ ∈ L)
    (h0 : ∀ i ∈ L, i ≠ i₀ → g i = 0) : (L.map g).sum = g i₀ := by
  induction L with
  | nil => cases hmem
  | cons j rest ih =>
    obtain ⟨hj0, hnd'⟩ := List.nodup_cons.mp hnd
    simp only [List.map_cons, List.sum_cons]
    by_cases hj : j = i₀
    · subst hj
      have hz : (rest.map g).sum = 0 := by
        apply List.sum_eq_zero
        intro x hx
        obtain ⟨i, hi, hgi⟩ := List.mem_map.mp hx
        rw [← hgi]
        exact h0 i (List.mem_cons_of_mem _ hi) (fun he => hj0 (he ▸ hi))
      rw [hz, Nat.add_zero]
    · have hmem' : i₀ ∈ rest := by
        rcases List.mem_cons.mp hmem with he | hm
        · exact absurd he.symm hj
        · exact hm
      rw [ih hnd' hmem' (fun i hi hne => h0 i (List.mem_cons_of_mem _ hi) hne),
        h0 j (List.mem_cons_self _ _) hj, Nat.zero_add]

theorem count_GetAllKey (s : CacheState α) (hWF : WF s) (k : Key) :
    (GetAllKey s).count k = if (lookupItem k s).isSome then 1 else 0 := by
  unfold GetAllKey
  rw [List.count_flatMap]
  cases hb : defaultHash k with
  | none =>
    have hnotin : ∀ i : Fin 128, k ∉ (s.items i).map Prod.fst := by
      intro i hk
      obtain ⟨p, hp, hpk⟩ := List.mem_map.mp hk
      have hpl := (hWF i).2 p hp
      rw [hpk, hb] at hpl
      cases hpl
    have hz : (List.map (List.count k ∘ fun i => (s.items i).map Prod.fst)
        (List.finRange 128)).sum = 0 := by
      apply List.sum_eq_zero
      intro x hx
      obtain ⟨i, -, hgi⟩ := List.mem_map.mp hx
      rw [← hgi]
      exact List.count_eq_zero.mpr (hnotin i)
    rw [hz]
    have hnone : (lookupItem k s).isSome = false := by
      cases hl : lookupItem k s with
      | none => rfl
      | some v =>
        have hl' : (plookup k (s.items (partIdx k))).isSome = true := by
          unfold lookupItem at hl
          rw [hl]
          rfl
        exact absurd (mem_keys_iff_isSome.mpr hl') (hnotin (partIdx k))
    rw [hnone]
    rfl
  | some b =>
    rw [sum_map_single (List.finRange 128) _ (partIdx k)
      (List.nodup_finRange 128) (List.mem_finRange _) ?h0]
    case h0 =>
      intro i _ hi
      simp only [Function.comp_apply]
      rw [List.count_eq_zero]
      intro hk
      obtain ⟨p, hp, hpk⟩ := List.mem_map.mp hk
      have hpl := (hWF i).2 p hp
      rw [hpk, hb] at hpl
      injection hpl with hbv
      exact hi (Fin.ext (((partIdx_val hb).trans hbv).symm))
    simp only [Function.comp_apply]
    cases hl : (lookupItem k s).isSome with
    | true =>
      rw [if_pos rfl]
      exact count_eq_one_of_nodup_mem (hWF (partIdx k)).1
        (mem_keys_iff_isSome.mpr hl)
    | false =>
      rw [if_neg (by simp)]
      rw [List.count_eq_zero]
      intro hk
      have hl' : (plookup k (s.items (partIdx k))).isSome = false := hl
      rw [mem_keys_iff_isSome.mp hk] at hl'
      cases hl'

/-- C6: `Flush` invokes the eviction callback exactly once per item present
at flush time (when a callback is registered) and leaves every partition
empty; `Clean` also leaves every partition empty but performs zero eviction
invocations. -/
theorem claim_C6 {α : Type} (s : CacheState α) :
    ((Clean s).2 = [] ∧ ∀ i, (Clean s).1.items i = [])
  ∧ (∀ i, (Flush s).1.items i = [])
  ∧ (s.hasEvicted = true → (Flush s).2 = GetAllObject s)
  ∧ (s.hasEvicted = true → WF s → ∀ k : Key,
      ((Flush s).2.map Prod.fst).count k
        = if (lookupItem k s).isSome then 1 else 0) := by
  have hflush : s.hasEvicted = true → (Flush s).2 = GetAllObject s := by
    intro hEv
    unfold Flush cleanup GetAllObject
    simp [hEv]
  refine ⟨⟨?_, fun i => rfl⟩, fun i => rfl, hflush, ?_⟩
  · unfold Clean cleanup
    simp
  · intro hEv hWF k
    rw [hflush hEv, map_fst_GetAllObject, count_GetAllKey s hWF k]

theorem wf_sOver : WF sOver := by
  intro i
  have hit : sOver.items i
      = if i = partIdx [97] then [([97], (⟨7, 5⟩ : Item Nat))] else [] := rfl
  by_cases h : i = partIdx [97]
  · rw [hit, if_pos h]
    refine ⟨by simp, ?_⟩
    intro p hp
    simp only [List.mem_singleton] at hp
    subst hp
    show defaultHash [97] = some i.val
    rw [h]
    rfl
  · rw [hit, if_neg h]
    exact ⟨List.nodup_nil, fun p hp => absurd hp (List.not_mem_nil p)⟩

/-- Witness for C6: flushing the one-item cache notifies key `[97]` exactly
once and no other key, clearing notifies nobody, and both empty the store. -/
theorem claim_C6_witness :
    (Clean sOver).2 = []
  ∧ (Flush sOver).1.items (partIdx [97]) = []
  ∧ ((Flush sOver).2.map Prod.fst).count [97] = 1
  ∧ ((Flush sOver).2.map Prod.fst).count [98] = 0 := by
  have h := claim_C6 sOver
  refine ⟨h.1.1, h.2.1 _, ?_, ?_⟩
  · rw [h.2.2.2 rfl wf_sOver [97]]
    rfl
  · rw [h.2.2.2 rfl wf_sOver [98]]
    rfl

end GoCache
